import Mathlib

/-!
Verification of the oreacle-bot Decision & Consistency Engine.

This file gives a shallow embedding of the core logic of the repository:

* `src/oreacle_bot/models.py` — the `Evidence`/`Extraction` pydantic models and
  their constructor-time validation;
* `src/src/decision.py` — the YES/NO decision gates and `final_verdict`;
* `src/oreacle_bot/prefilter.py` — the boolean relevance filter, the fuzzy
  Jianxiawo matcher and `enhanced_relevance_check`;
* `src/oreaclebot/ladder.py` — deadline extraction from market questions,
  grouping of markets by base question, and the pairwise ladder-monotonicity
  check.

Modelling conventions:

* Python `float` values (confidences, probabilities, tolerances) are modelled
  as `ℚ`; all inputs in the program are decimal literals, which ℚ represents
  exactly.
* Python dicts coming from JSON (markets, phrasebooks) are modelled as
  structures with `Option` fields (for `dict.get` with a default) or as
  association lists (for phrasebooks, where key presence is tested).
* Regex character classes `\s`, `\d`, `\w` are modelled over their ASCII
  subsets (`isPySpace`, `Char.isDigit`, `isWordChar`); the questions and
  phrases the program manipulates in these code paths are ASCII.
* `str.lower` is modelled by mapping `Char.toLower` over the characters
  (ASCII lowering; CJK characters have no case).
-/

namespace Oreacle

/-! ### Generic string helpers (Python `in`, `lower`, `strip`) -/

/-- Python's substring test `needle in hay`, on character lists. -/
def containsSub (needle : List Char) : List Char → Bool
  | [] => needle.isEmpty
  | c :: rest => needle.isPrefixOf (c :: rest) || containsSub needle rest

/-- Characters matched by Python's `str.strip()` / regex `\s` (ASCII subset). -/
def isPySpace (c : Char) : Bool :=
  c == ' ' || c == '\t' || c == '\n' || c == '\r' || c.toNat == 11 || c.toNat == 12

/-- `str.lower()` as a character list (ASCII case folding). -/
def lowerChars (s : String) : List Char := s.data.map Char.toLower

/-- `str.lower()` returning a `String`. -/
def lowerStr (s : String) : String := ⟨lowerChars s⟩

/-- `needle.lower() in hay.lower()`. -/
def substrLower (needle hay : String) : Bool :=
  containsSub (lowerChars needle) (lowerChars hay)

/-- `str.strip()` on a character list. -/
def stripChars (l : List Char) : List Char :=
  ((l.dropWhile isPySpace).reverse.dropWhile isPySpace).reverse

/-! ### `src/oreacle_bot/models.py` — data model and validation

`Evidence` and `Extraction` are pydantic models.  Pydantic raises a
`ValidationError` when a required field is missing, when a `Literal` field
holds an unrecognized string, or when `confidence` falls outside
`[0.0, 1.0]`; we model validated construction by `mkEvidence`/`mkExtraction`
returning `none` exactly when pydantic would raise. -/

/-- `AllowedLabel = Literal["YES_CONDITION", "NO_CONDITION", "AMBIGUOUS", "IRRELEVANT"]`. -/
inductive AllowedLabel where
  | YES_CONDITION
  | NO_CONDITION
  | AMBIGUOUS
  | IRRELEVANT
deriving DecidableEq

/-- `mine_match: Literal["JIANXIAWO_MATCH", "POSSIBLE_MATCH", "NO_MATCH"]`. -/
inductive MineMatch where
  | JIANXIAWO_MATCH
  | POSSIBLE_MATCH
  | NO_MATCH
deriving DecidableEq

/-- The `Evidence` pydantic model: three required `str` fields. -/
structure Evidence where
  exact_zh_quote : String
  en_literal : String
  where_in_doc : String
deriving DecidableEq

/-- The `Extraction` pydantic model. -/
structure Extraction where
  doc_url : String
  doc_title : Option String
  mine_match : MineMatch
  authority : Option String
  key_terms_found_zh : List String
  key_terms_found_en : List String
  proposed_label : AllowedLabel
  confidence : ℚ
  evidence : List Evidence
  hazards : List String
deriving DecidableEq

/-- Validated construction of `Evidence`: each field is required (missing ⇒
pydantic `ValidationError`, modelled as `none`); pydantic imposes no
constraint on the string's content, so the empty string is accepted. -/
def mkEvidence (q t w : Option String) : Option Evidence :=
  match q, t, w with
  | some q, some t, some w => some ⟨q, t, w⟩
  | _, _, _ => none

/-- Parsing of the `AllowedLabel` literal enum from a raw string. -/
def parseLabel (s : String) : Option AllowedLabel :=
  if s = "YES_CONDITION" then some .YES_CONDITION
  else if s = "NO_CONDITION" then some .NO_CONDITION
  else if s = "AMBIGUOUS" then some .AMBIGUOUS
  else if s = "IRRELEVANT" then some .IRRELEVANT
  else none

/-- Parsing of the `mine_match` literal enum from a raw string. -/
def parseMineMatch (s : String) : Option MineMatch :=
  if s = "JIANXIAWO_MATCH" then some .JIANXIAWO_MATCH
  else if s = "POSSIBLE_MATCH" then some .POSSIBLE_MATCH
  else if s = "NO_MATCH" then some .NO_MATCH
  else none

/-- Pydantic validation of the nested `evidence` list: every entry must
itself be a valid `Evidence`. -/
def validateEvidence :
    List (Option String × Option String × Option String) → Option (List Evidence)
  | [] => some []
  | e :: rest =>
    match mkEvidence e.1 e.2.1 e.2.2, validateEvidence rest with
    | some v, some vs => some (v :: vs)
    | _, _ => none

/-- Validated construction of `Extraction` from raw input.  Required fields
(`doc_url`, `mine_match`, `proposed_label`, `confidence`) are `Option`s so a
missing field can be represented; list fields default to `[]` in the model so
they are plain lists here.  Validation: enum fields must parse, confidence
must lie in `[0, 1]`, and every evidence entry must itself validate. -/
def mkExtraction (doc_url : Option String) (doc_title : Option String)
    (mine_match : Option String) (authority : Option String)
    (key_terms_found_zh key_terms_found_en : List String)
    (proposed_label : Option String) (confidence : Option ℚ)
    (evidence : List (Option String × Option String × Option String))
    (hazards : List String) : Option Extraction :=
  match doc_url, mine_match.bind parseMineMatch, proposed_label.bind parseLabel,
      confidence with
  | some u, some mm, some lbl, some c =>
    if 0 ≤ c ∧ c ≤ 1 then
      match validateEvidence evidence with
      | some evs =>
        some ⟨u, doc_title, mm, authority, key_terms_found_zh,
              key_terms_found_en, lbl, c, evs, hazards⟩
      | none => none
    else none
  | _, _, _, _ => none

/-! ### `src/src/decision.py` — decision gates

`MIN_CONF` is `float(os.getenv("OREACLE_MIN_CONFIDENCE", "0.75"))`; we expose
it as a parameter `mc` of the gates (default `3/4`). -/

def YES_ZH : List String :=
  ["采矿许可证恢复", "恢复生产", "恢复开采", "核发采矿许可证", "延续", "续期", "换发"]

def YES_EN : List String :=
  ["mining license renewed", "resume production", "resumption of mining",
   "license renewal", "permit renewal"]

def NO_ZH : List String :=
  ["仅限勘探", "探矿权", "暂停生产", "停止生产", "责令停产"]

def NO_EN : List String :=
  ["exploration only", "exploration permit", "suspend production", "halt production"]

/-- `bool(YES_EN & terms_en) or bool(YES_ZH & terms_zh)` where
`terms_en = {t.lower() for t in x.key_terms_found_en}`. -/
def has_yes (x : Extraction) : Bool :=
  x.key_terms_found_en.any (fun t => YES_EN.contains (lowerStr t)) ||
  x.key_terms_found_zh.any (fun t => YES_ZH.contains t)

/-- `any(e.exact_zh_quote.strip() for e in x.evidence)`: some evidence entry
has a non-empty, non-whitespace quote. -/
def has_quote (x : Extraction) : Bool :=
  x.evidence.any (fun e => !(stripChars e.exact_zh_quote.data).isEmpty)

/-- `any("exploration" in t.lower() for t in terms_en) or any("勘探" in t for t in terms_zh)`. -/
def exploration_flag (x : Extraction) : Bool :=
  x.key_terms_found_en.any (fun t => containsSub "exploration".data (lowerChars t)) ||
  x.key_terms_found_zh.any (fun t => containsSub "勘探".data t.data)

/-- `bool(NO_EN & terms_en) or bool(NO_ZH & terms_zh)` — computed as `no_flag`
inside the YES gate and as `has_no` inside the NO gate (textually identical
expressions in the source). -/
def has_no_terms (x : Extraction) : Bool :=
  x.key_terms_found_en.any (fun t => NO_EN.contains (lowerStr t)) ||
  x.key_terms_found_zh.any (fun t => NO_ZH.contains t)

/-- `passes_yes_gate`: strict gate for YES decisions. -/
def passes_yes_gate (mc : ℚ) (x : Extraction) : Bool :=
  if x.proposed_label ≠ AllowedLabel.YES_CONDITION then false
  else if x.mine_match ≠ MineMatch.JIANXIAWO_MATCH then false
  else if x.confidence < mc then false
  else has_yes x && has_quote x && !exploration_flag x && !has_no_terms x

/-- `passes_no_gate`: gate for NO decisions. -/
def passes_no_gate (mc : ℚ) (x : Extraction) : Bool :=
  if x.proposed_label ≠ AllowedLabel.NO_CONDITION then false
  else if x.mine_match = MineMatch.NO_MATCH then false
  else has_no_terms x && decide (mc ≤ x.confidence)

/-- `final_verdict`: conservative final decision with strict gates. -/
def final_verdict (mc : ℚ) (x : Extraction) : AllowedLabel :=
  if passes_yes_gate mc x then .YES_CONDITION
  else if passes_no_gate mc x then .NO_CONDITION
  else .AMBIGUOUS

/-! ### `src/oreacle_bot/prefilter.py` — relevance prefilter

The phrasebook is a JSON/YAML dict mapping category names to lists of
strings; we model it as an association list (`dict` keys are unique, and
lookup returns the first binding). -/

def Phrasebook : Type := List (String × List String)

/-- `category in phrasebook` / `phrasebook[category]`. -/
def lookupPB (pb : Phrasebook) (k : String) : Option (List String) :=
  match pb with
  | [] => none
  | (k', v) :: rest => if k' = k then some v else lookupPB rest k

/-- One category's contribution to a half of the boolean filter:
`any(term.lower() in text.lower() for term in phrasebook[cat])`, with an
absent category contributing nothing. -/
def categoryHits (text : String) (pb : Phrasebook) (cat : String) : Bool :=
  match lookupPB pb cat with
  | some terms => terms.any (fun t => substrLower t text)
  | none => false

/-- The entity half of `passes_boolean_filter` (company, mine, or geo alias). -/
def entity_match (text : String) (pb : Phrasebook) : Bool :=
  ["company_aliases", "mine_aliases", "geo_aliases"].any (categoryHits text pb)

/-- The action half of `passes_boolean_filter` (license actions or resumption
verbs). Note the source consults `yes_zh`, `yes_en`, `no_zh` and
`traditional_zh` — not `no_en`. -/
def action_match (text : String) (pb : Phrasebook) : Bool :=
  ["yes_zh", "yes_en", "no_zh", "traditional_zh"].any (categoryHits text pb)

/-- `passes_boolean_filter`: requires (entity OR geo) AND (license-action OR
resumption verb). -/
def passes_boolean_filter (text : String) (pb : Phrasebook) : Bool :=
  entity_match text pb && action_match text pb

/-- `fuzzy_mine_match`: fuzzy variants of Jianxiawo. -/
def fuzzy_mine_match (text : String) : Bool :=
  if ["jianxiawo", "jianxia wo", "jian xia wo"].any
      (fun v => containsSub v.data (lowerChars text)) then
    true
  else if ["mining", "采矿", "矿", "lithium", "锂", "mine"].any
      (fun t => containsSub t.data (lowerChars text)) then
    -- typo variants are tested against the original (un-lowered) text
    ["建夏沃", "建夏窝", "涧下窝"].any (fun v => containsSub v.data text.data)
  else false

/-- A feed item, a dict accessed via `item.get('title', '')`. -/
structure Item where
  title : Option String
deriving DecidableEq

/-- `enhanced_relevance_check`: boolean filter with fuzzy fallback. -/
def enhanced_relevance_check (item : Item) (pb : Phrasebook) : Bool :=
  passes_boolean_filter (item.title.getD "") pb || fuzzy_mine_match (item.title.getD "")

/-! ### `src/oreaclebot/ladder.py` — deadline extraction

`extract_deadline_from_question` applies three regex families in order:

1. `by\s+(\d{4}-\d{2}-\d{2})` followed by `strptime('%Y-%m-%d')`;
2. `by\s+(\w+)\s+(\d{1,2}),?\s+(\d{4})` followed by `strptime('%B %d, %Y')`
   then, on `ValueError`, `strptime('%b %d, %Y')`;
3. `before\s+(\w+)\s+(\d{1,2}),?\s+(\d{4})` followed by
   `strptime('%B %d, %Y')` and subtraction of one day.

A failed `strptime` (`ValueError`) falls through to the next family.  The
scanners below implement `re.search` for exactly these patterns: they try
each start position from the left; within a position the patterns are
deterministic except for the `\d{1,2}` day group, where the greedy 2-digit
alternative is tried before the 1-digit one. -/

/-- A calendar date (Python `datetime` with zero time-of-day). -/
structure Date where
  year : ℕ
  month : ℕ
  day : ℕ
deriving DecidableEq

/-- Chronological comparison of `datetime` values (lexicographic). -/
def dateLe (a b : Date) : Bool :=
  decide (a.year < b.year ∨ (a.year = b.year ∧
    (a.month < b.month ∨ (a.month = b.month ∧ a.day ≤ b.day))))

/-- Regex `\w` (ASCII subset: letters, digits, underscore). -/
def isWordChar (c : Char) : Bool := c.isAlphanum || c == '_'

/-- Count and drop a maximal run of `\s` characters. -/
def spanWS : List Char → ℕ × List Char
  | [] => (0, [])
  | c :: rest =>
    if isPySpace c then
      let (k, r) := spanWS rest
      (k + 1, r)
    else (0, c :: rest)

/-- Take and drop a maximal run of `\w` characters. -/
def spanWord : List Char → List Char × List Char
  | [] => ([], [])
  | c :: rest =>
    if isWordChar c then
      let (w, r) := spanWord rest
      (c :: w, r)
    else ([], c :: rest)

/-- Numeric value of an ASCII digit. -/
def digitVal (c : Char) : ℕ := c.toNat - 48

/-- Case-insensitive literal keyword match (keyword given in lowercase);
returns the rest of the input on success. -/
def matchKW : List Char → List Char → Option (List Char)
  | [], l => some l
  | _ :: _, [] => none
  | k :: ks, c :: cs => if c.toLower == k then matchKW ks cs else none

/-- Try `by\s+(\d{4}-\d{2}-\d{2})` at the current position; returns the raw
`(year, month, day)` digit groups. -/
def tryIsoAt (l : List Char) : Option (ℕ × ℕ × ℕ) :=
  match matchKW ['b', 'y'] l with
  | none => none
  | some r0 =>
    let (k, r) := spanWS r0
    if k == 0 then none
    else match r with
      | a1 :: a2 :: a3 :: a4 :: h1 :: m1 :: m2 :: h2 :: d1 :: d2 :: _ =>
        if a1.isDigit && a2.isDigit && a3.isDigit && a4.isDigit && h1 == '-' &&
            m1.isDigit && m2.isDigit && h2 == '-' && d1.isDigit && d2.isDigit then
          some (1000 * digitVal a1 + 100 * digitVal a2 + 10 * digitVal a3 + digitVal a4,
                10 * digitVal m1 + digitVal m2,
                10 * digitVal d1 + digitVal d2)
        else none
      | _ => none

/-- `re.search` for the ISO pattern: first matching start position. -/
def searchIso : List Char → Option (ℕ × ℕ × ℕ)
  | [] => none
  | c :: rest =>
    match tryIsoAt (c :: rest) with
    | some g => some g
    | none => searchIso rest

/-- The `,?\s+(\d{4})` tail of the month-name patterns. -/
def tailYear (l : List Char) : Option ℕ :=
  let l1 := match l with
    | ',' :: r => r
    | r => r
  let (k, r) := spanWS l1
  if k == 0 then none
  else match r with
    | a :: b :: c :: d :: _ =>
      if a.isDigit && b.isDigit && c.isDigit && d.isDigit then
        some (1000 * digitVal a + 100 * digitVal b + 10 * digitVal c + digitVal d)
      else none
    | _ => none

/-- Try `kw\s+(\w+)\s+(\d{1,2}),?\s+(\d{4})` at the current position;
returns the word group, the day value and the year value. -/
def tryMonthAt (kw : List Char) (l : List Char) : Option (List Char × ℕ × ℕ) :=
  match matchKW kw l with
  | none => none
  | some r0 =>
    let (k1, r1) := spanWS r0
    if k1 == 0 then none
    else
      let (w, r2) := spanWord r1
      if w.isEmpty then none
      else
        let (k2, r3) := spanWS r2
        if k2 == 0 then none
        else match r3 with
          | d1 :: rest1 =>
            if d1.isDigit then
              match rest1 with
              | d2 :: rest2 =>
                if d2.isDigit then
                  -- greedy: two-digit day, no 1-digit fallback can succeed
                  -- when the following char is a digit
                  match tailYear rest2 with
                  | some y => some (w, 10 * digitVal d1 + digitVal d2, y)
                  | none => none
                else
                  match tailYear rest1 with
                  | some y => some (w, digitVal d1, y)
                  | none => none
              | [] => none
            else none
          | [] => none

/-- `re.search` for a month-name pattern with the given keyword. -/
def searchMonth (kw : List Char) : List Char → Option (List Char × ℕ × ℕ)
  | [] => none
  | c :: rest =>
    match tryMonthAt kw (c :: rest) with
    | some g => some g
    | none => searchMonth kw rest

/-- `strptime` `%B` month names (matched case-insensitively). -/
def monthFromFull (w : List Char) : Option ℕ :=
  let s : String := ⟨w.map Char.toLower⟩
  if s = "january" then some 1
  else if s = "february" then some 2
  else if s = "march" then some 3
  else if s = "april" then some 4
  else if s = "may" then some 5
  else if s = "june" then some 6
  else if s = "july" then some 7
  else if s = "august" then some 8
  else if s = "september" then some 9
  else if s = "october" then some 10
  else if s = "november" then some 11
  else if s = "december" then some 12
  else none

/-- `strptime` `%b` abbreviated month names (matched case-insensitively). -/
def monthFromAbbr (w : List Char) : Option ℕ :=
  let s : String := ⟨w.map Char.toLower⟩
  if s = "jan" then some 1
  else if s = "feb" then some 2
  else if s = "mar" then some 3
  else if s = "apr" then some 4
  else if s = "may" then some 5
  else if s = "jun" then some 6
  else if s = "jul" then some 7
  else if s = "aug" then some 8
  else if s = "sep" then some 9
  else if s = "oct" then some 10
  else if s = "nov" then some 11
  else if s = "dec" then some 12
  else none

/-- Python's proleptic-Gregorian leap-year rule. -/
def leapYear (y : ℕ) : Bool := y % 4 == 0 && (y % 100 != 0 || y % 400 == 0)

def daysInMonth (y m : ℕ) : ℕ :=
  if m == 2 then (if leapYear y then 29 else 28)
  else if m == 4 || m == 6 || m == 9 || m == 11 then 30
  else 31

/-- Combined `strptime` range checks and `datetime` constructor validation:
month in 1–12, day in 1–`daysInMonth`, year ≥ `datetime.MINYEAR` (a 4-digit
group is automatically ≤ `MAXYEAR`).  Any failure raises `ValueError` in the
source, which the caller catches and treats as "try the next family". -/
def mkValidDate (y m d : ℕ) : Option Date :=
  if 1 ≤ y ∧ 1 ≤ m ∧ m ≤ 12 ∧ 1 ≤ d ∧ d ≤ daysInMonth y m then
    some ⟨y, m, d⟩
  else none

/-- `datetime - timedelta(days=1)`.  (At `0001-01-01` Python would raise
`OverflowError`, which `extract_deadline_from_question` does not catch; no
claim exercises that input and natural subtraction stands in for it here.) -/
def predDate (dt : Date) : Date :=
  if 1 < dt.day then ⟨dt.year, dt.month, dt.day - 1⟩
  else if 1 < dt.month then ⟨dt.year, dt.month - 1, daysInMonth dt.year (dt.month - 1)⟩
  else ⟨dt.year - 1, 12, 31⟩

/-- `extract_deadline_from_question`. -/
def extract_deadline_from_question (question : String) : Option Date :=
  let cs := question.data
  let iso : Option Date :=
    match searchIso cs with
    | some (y, m, d) => mkValidDate y m d
    | none => none
  match iso with
  | some dt => some dt
  | none =>
    let monthRes : Option Date :=
      match searchMonth ['b', 'y'] cs with
      | some (w, d, y) =>
        match monthFromFull w with
        | some m => mkValidDate y m d
        | none =>
          match monthFromAbbr w with
          | some m => mkValidDate y m d
          | none => none
      | none => none
    match monthRes with
    | some dt => some dt
    | none =>
      match searchMonth ['b', 'e', 'f', 'o', 'r', 'e'] cs with
      | some (w, d, y) =>
        match monthFromFull w with
        | some m => (mkValidDate y m d).map predDate
        | none => none
      | none => none

/-! ### `src/oreaclebot/ladder.py` — grouping and monotonicity check -/

/-- A market dict from the Manifold API; the checker reads
`market.get('question', '')` and `market.get('probability', 0)`. -/
structure Market where
  question : Option String
  probability : Option ℚ
deriving DecidableEq

/-- `market.get('probability', 0)`. -/
def probOf (m : Market) : ℚ := m.probability.getD 0

/-- `LadderViolation` with the fields set by `__init__`. -/
structure LadderViolation where
  earlier_market : Market
  later_market : Market
  earlier_prob : ℚ
  later_prob : ℚ
  violation_size : ℚ
deriving DecidableEq

/-- `LadderViolation.__init__`, which computes
`violation_size = earlier_prob - later_prob`. -/
def LadderViolation.make (em lm : Market) (ep lp : ℚ) : LadderViolation :=
  ⟨em, lm, ep, lp, ep - lp⟩

/-- Try `\s*(by|before)\s+[^?]+` at the current position (the pattern of the
`re.sub` in `group_markets_by_base_question`); on a match, return the rest of
the input after the matched span.  The span is: optional whitespace, the
keyword, then at least one whitespace and at least one non-`?` character —
greedily, all whitespace followed by everything up to the next `?`; when
nothing but whitespace follows the keyword, the regex backtracks and the
last whitespace character is consumed by `[^?]+` (requiring at least two
whitespace characters). -/
def trySubAt (l : List Char) : Option (List Char) :=
  let r0 := (spanWS l).2
  let kwRest : Option (List Char) :=
    match matchKW ['b', 'y'] r0 with
    | some r1 => some r1
    | none => matchKW ['b', 'e', 'f', 'o', 'r', 'e'] r0
  match kwRest with
  | none => none
  | some r1 =>
    let (k, r2) := spanWS r1
    if k == 0 then none
    else match r2 with
      | [] => if 2 ≤ k then some [] else none
      | c :: _ =>
        if c == '?' then (if 2 ≤ k then some r2 else none)
        else some (r2.dropWhile (fun ch => !(ch == '?')))

/-- `re.sub(r'\s*(by|before)\s+[^?]+', '', question)`: scan left to right,
deleting each non-overlapping match.  Recursion is fuelled by the input
length: every step consumes at least one character (a match spans at least
the keyword), so fuel equal to the length is always sufficient and the
`fuel = 0` branch is unreachable. -/
def subScanAux : ℕ → List Char → List Char
  | 0, l => l
  | _ + 1, [] => []
  | fuel + 1, c :: rest =>
    match trySubAt (c :: rest) with
    | some rem => subScanAux fuel rem
    | none => c :: subScanAux fuel rest

/-- The base question: deadline clause removed, then `strip()`ed. -/
def baseQuestion (question : String) : String :=
  ⟨stripChars (subScanAux question.data.length question.data)⟩

/-- Append a market to its group, preserving Python's insertion-ordered
dict semantics. -/
def addToGroups (groups : List (String × List Market)) (key : String)
    (m : Market) : List (String × List Market) :=
  match groups with
  | [] => [(key, [m])]
  | (k, ms) :: rest =>
    if k = key then (k, ms ++ [m]) :: rest
    else (k, ms) :: addToGroups rest key m

/-- `group_markets_by_base_question`: group by base question, then keep only
groups with more than one member. -/
def group_markets_by_base_question (markets : List Market) :
    List (String × List Market) :=
  (markets.foldl (fun gs m => addToGroups gs (baseQuestion (m.question.getD "")) m) []).filter
    (fun g => 1 < g.2.length)

/-- The markets of a group that have a parseable deadline, paired with it:
the `markets_with_deadlines` accumulation in `check_group_monotonicity`. -/
def marketsWithDeadlines (markets : List Market) : List (Market × Date) :=
  markets.filterMap (fun m =>
    (extract_deadline_from_question (m.question.getD "")).map (fun d => (m, d)))

/-- Ascending-by-deadline ordering on `(market, deadline)` pairs, the key
function of `markets_with_deadlines.sort(key=lambda x: x[1])`. -/
def deadlineRel (a b : Market × Date) : Prop := dateLe a.2 b.2 = true

instance : DecidableRel deadlineRel := fun a b => by
  unfold deadlineRel; infer_instance

/-- `markets_with_deadlines.sort(key=lambda x: x[1])`.  Python's `list.sort`
is a stable ascending sort; a stable sort's output is uniquely determined by
the (total, transitive) ordering, and `List.insertionSort` is stable, so this
is extensionally the same list as CPython's timsort produces. -/
def sortedLadder (markets : List Market) : List (Market × Date) :=
  List.insertionSort deadlineRel (marketsWithDeadlines markets)

/-- The element-pair traversal of the double loop
`for i in range(n): for j in range(i+1, n)`. -/
def pairLoop {α : Type} : List α → List (α × α)
  | [] => []
  | x :: xs => (xs.map (fun y => (x, y))) ++ pairLoop xs

/-- `check_group_monotonicity`: deadline extraction, deadline sort, then the
exhaustive pairwise scan emitting a violation whenever
`earlier_prob > later_prob + min_violation_size`. -/
def check_group_monotonicity (tol : ℚ) (markets : List Market) :
    List LadderViolation :=
  (pairLoop (sortedLadder markets)).filterMap (fun pr =>
    if probOf pr.2.1 + tol < probOf pr.1.1 then
      some (LadderViolation.make pr.1.1 pr.2.1 (probOf pr.1.1) (probOf pr.2.1))
    else none)

/-- `check_all_violations`: group, then check each group. -/
def check_all_violations (tol : ℚ) (markets : List Market) :
    List LadderViolation :=
  (group_markets_by_base_question markets).flatMap
    (fun g => check_group_monotonicity tol g.2)

/-! ### Helper lemmas about the decision gates -/

lemma passes_yes_gate_iff (mc : ℚ) (x : Extraction) :
    passes_yes_gate mc x = true ↔
      (x.proposed_label = AllowedLabel.YES_CONDITION ∧
       x.mine_match = MineMatch.JIANXIAWO_MATCH ∧
       ¬(x.confidence < mc) ∧
       has_yes x = true ∧ has_quote x = true ∧
       exploration_flag x = false ∧ has_no_terms x = false) := by
  unfold passes_yes_gate
  split_ifs with h1 h2 h3 <;>
    simp_all [Bool.and_eq_true, Bool.not_eq_true', and_assoc]

lemma passes_no_gate_iff (mc : ℚ) (x : Extraction) :
    passes_no_gate mc x = true ↔
      (x.proposed_label = AllowedLabel.NO_CONDITION ∧
       x.mine_match ≠ MineMatch.NO_MATCH ∧
       has_no_terms x = true ∧ mc ≤ x.confidence) := by
  unfold passes_no_gate
  split_ifs with h1 h2 <;> simp_all [Bool.and_eq_true]

lemma final_verdict_of_gates {mc : ℚ} {x : Extraction}
    (hy : passes_yes_gate mc x = false) (hn : passes_no_gate mc x = false) :
    final_verdict mc x = AllowedLabel.AMBIGUOUS := by
  simp [final_verdict, hy, hn]

/-- The `final_verdict` of a record that fails the YES gate only because one
of the seven conditions was negated, while the proposed label is still
`YES_CONDITION`, is `AMBIGUOUS` (the NO gate demands a `NO_CONDITION` label). -/
lemma ambiguous_of_label_yes {mc : ℚ} {x : Extraction}
    (hl : x.proposed_label = AllowedLabel.YES_CONDITION)
    (hy : passes_yes_gate mc x = false) :
    final_verdict mc x = AllowedLabel.AMBIGUOUS := by
  refine final_verdict_of_gates hy ?_
  rw [Bool.eq_false_iff]
  intro hc
  exact absurd ((passes_no_gate_iff mc x).mp hc).1 (by rw [hl]; intro h; cases h)

/-- C1: a record whose proposed label is `YES_CONDITION`, whose mine match is
`JIANXIAWO_MATCH`, whose confidence is at least the configured minimum, with
a matched term in the YES allow-list (either language), an evidence entry
with a non-whitespace quote, no exploration-scope term and no NO-list term,
gets final verdict `YES_CONDITION`; negating any single one of the seven
conditions makes the final verdict `AMBIGUOUS`. -/
theorem yes_gate_seven_conditions (mc : ℚ) (x : Extraction) :
    (x.proposed_label = AllowedLabel.YES_CONDITION ∧
     x.mine_match = MineMatch.JIANXIAWO_MATCH ∧
     mc ≤ x.confidence ∧
     has_yes x = true ∧ has_quote x = true ∧
     exploration_flag x = false ∧ has_no_terms x = false →
       final_verdict mc x = AllowedLabel.YES_CONDITION) ∧
    (x.proposed_label ≠ AllowedLabel.YES_CONDITION ∧
     x.mine_match = MineMatch.JIANXIAWO_MATCH ∧
     mc ≤ x.confidence ∧
     has_yes x = true ∧ has_quote x = true ∧
     exploration_flag x = false ∧ has_no_terms x = false →
       final_verdict mc x = AllowedLabel.AMBIGUOUS) ∧
    (x.proposed_label = AllowedLabel.YES_CONDITION ∧
     x.mine_match ≠ MineMatch.JIANXIAWO_MATCH ∧
     mc ≤ x.confidence ∧
     has_yes x = true ∧ has_quote x = true ∧
     exploration_flag x = false ∧ has_no_terms x = false →
       final_verdict mc x = AllowedLabel.AMBIGUOUS) ∧
    (x.proposed_label = AllowedLabel.YES_CONDITION ∧
     x.mine_match = MineMatch.JIANXIAWO_MATCH ∧
     x.confidence < mc ∧
     has_yes x = true ∧ has_quote x = true ∧
     exploration_flag x = false ∧ has_no_terms x = false →
       final_verdict mc x = AllowedLabel.AMBIGUOUS) ∧
    (x.proposed_label = AllowedLabel.YES_CONDITION ∧
     x.mine_match = MineMatch.JIANXIAWO_MATCH ∧
     mc ≤ x.confidence ∧
     has_yes x = false ∧ has_quote x = true ∧
     exploration_flag x = false ∧ has_no_terms x = false →
       final_verdict mc x = AllowedLabel.AMBIGUOUS) ∧
    (x.proposed_label = AllowedLabel.YES_CONDITION ∧
     x.mine_match = MineMatch.JIANXIAWO_MATCH ∧
     mc ≤ x.confidence ∧
     has_yes x = true ∧ has_quote x = false ∧
     exploration_flag x = false ∧ has_no_terms x = false →
       final_verdict mc x = AllowedLabel.AMBIGUOUS) ∧
    (x.proposed_label = AllowedLabel.YES_CONDITION ∧
     x.mine_match = MineMatch.JIANXIAWO_MATCH ∧
     mc ≤ x.confidence ∧
     has_yes x = true ∧ has_quote x = true ∧
     exploration_flag x = true ∧ has_no_terms x = false →
       final_verdict mc x = AllowedLabel.AMBIGUOUS) ∧
    (x.proposed_label = AllowedLabel.YES_CONDITION ∧
     x.mine_match = MineMatch.JIANXIAWO_MATCH ∧
     mc ≤ x.confidence ∧
     has_yes x = true ∧ has_quote x = true ∧
     exploration_flag x = false ∧ has_no_terms x = true →
       final_verdict mc x = AllowedLabel.AMBIGUOUS) := by
  refine ⟨?_, ?_, ?_, ?_, ?_, ?_, ?_, ?_⟩
  · rintro ⟨h1, h2, h3, h4, h5, h6, h7⟩
    have hy : passes_yes_gate mc x = true :=
      (passes_yes_gate_iff mc x).mpr ⟨h1, h2, not_lt.mpr h3, h4, h5, h6, h7⟩
    simp [final_verdict, hy]
  · rintro ⟨h1, h2, h3, h4, h5, h6, h7⟩
    have hy : passes_yes_gate mc x = false := by
      rw [Bool.eq_false_iff]
      intro hc
      exact h1 ((passes_yes_gate_iff mc x).mp hc).1
    have hn : passes_no_gate mc x = false := by
      rw [Bool.eq_false_iff]
      intro hc
      have := ((passes_no_gate_iff mc x).mp hc).2.2.1
      simp [h7] at this
    exact final_verdict_of_gates hy hn
  · rintro ⟨h1, h2, h3, h4, h5, h6, h7⟩
    refine ambiguous_of_label_yes h1 (Bool.eq_false_iff.mpr fun hc => ?_)
    exact h2 ((passes_yes_gate_iff mc x).mp hc).2.1
  · rintro ⟨h1, h2, h3, h4, h5, h6, h7⟩
    refine ambiguous_of_label_yes h1 (Bool.eq_false_iff.mpr fun hc => ?_)
    exact ((passes_yes_gate_iff mc x).mp hc).2.2.1 h3
  · rintro ⟨h1, h2, h3, h4, h5, h6, h7⟩
    refine ambiguous_of_label_yes h1 (Bool.eq_false_iff.mpr fun hc => ?_)
    have := ((passes_yes_gate_iff mc x).mp hc).2.2.2.1
    simp [h4] at this
  · rintro ⟨h1, h2, h3, h4, h5, h6, h7⟩
    refine ambiguous_of_label_yes h1 (Bool.eq_false_iff.mpr fun hc => ?_)
    have := ((passes_yes_gate_iff mc x).mp hc).2.2.2.2.1
    simp [h5] at this
  · rintro ⟨h1, h2, h3, h4, h5, h6, h7⟩
    refine ambiguous_of_label_yes h1 (Bool.eq_false_iff.mpr fun hc => ?_)
    have := ((passes_yes_gate_iff mc x).mp hc).2.2.2.2.2.1
    simp [h6] at this
  · rintro ⟨h1, h2, h3, h4, h5, h6, h7⟩
    refine ambiguous_of_label_yes h1 (Bool.eq_false_iff.mpr fun hc => ?_)
    have := ((passes_yes_gate_iff mc x).mp hc).2.2.2.2.2.2
    simp [h7] at this

/-- A concrete record satisfying all seven YES-gate conditions. -/
def wrecYes : Extraction :=
  ⟨"https://example.com/doc", none, .JIANXIAWO_MATCH, none, ["恢复生产"], [],
   .YES_CONDITION, 9/10, [⟨"恢复生产公告", "resume production notice", "sec1"⟩], []⟩

/-- Witness for C1 at the default threshold `0.75`. -/
theorem yes_gate_seven_conditions_witness :
    final_verdict (3/4) wrecYes = AllowedLabel.YES_CONDITION :=
  (yes_gate_seven_conditions (3/4) wrecYes).1
    ⟨rfl, rfl, by norm_num [wrecYes], by decide, by decide, by decide, by decide⟩

/-- C3: `final_verdict` always lands in
\{YES_CONDITION, NO_CONDITION, AMBIGUOUS\}; it never returns `IRRELEVANT`,
and a record proposed as `IRRELEVANT` always yields `AMBIGUOUS`. -/
theorem verdict_never_irrelevant (mc : ℚ) (x : Extraction) :
    (final_verdict mc x = AllowedLabel.YES_CONDITION ∨
     final_verdict mc x = AllowedLabel.NO_CONDITION ∨
     final_verdict mc x = AllowedLabel.AMBIGUOUS) ∧
    final_verdict mc x ≠ AllowedLabel.IRRELEVANT ∧
    (x.proposed_label = AllowedLabel.IRRELEVANT →
      final_verdict mc x = AllowedLabel.AMBIGUOUS) := by
  refine ⟨?_, ?_, ?_⟩
  · unfold final_verdict
    split_ifs <;> simp
  · unfold final_verdict
    split_ifs <;> simp
  · intro h
    have hy : passes_yes_gate mc x = false := by
      rw [Bool.eq_false_iff]
      intro hc
      have := ((passes_yes_gate_iff mc x).mp hc).1
      rw [h] at this
      cases this
    have hn : passes_no_gate mc x = false := by
      rw [Bool.eq_false_iff]
      intro hc
      have := ((passes_no_gate_iff mc x).mp hc).1
      rw [h] at this
      cases this
    exact final_verdict_of_gates hy hn

/-- A concrete record proposed as `IRRELEVANT`. -/
def wrecIrr : Extraction :=
  ⟨"https://example.com/doc", none, .NO_MATCH, none, [], [],
   .IRRELEVANT, 99/100, [], []⟩

/-- Witness for C3. -/
theorem verdict_never_irrelevant_witness :
    final_verdict (3/4) wrecIrr = AllowedLabel.AMBIGUOUS :=
  (verdict_never_irrelevant (3/4) wrecIrr).2.2 rfl

/-- C4: a record whose confidence is strictly below the configured minimum
gets verdict `AMBIGUOUS`, regardless of every other field. -/
theorem low_confidence_always_ambiguous (mc : ℚ) (x : Extraction)
    (h : x.confidence < mc) :
    final_verdict mc x = AllowedLabel.AMBIGUOUS ∧
    final_verdict mc x ≠ AllowedLabel.YES_CONDITION ∧
    final_verdict mc x ≠ AllowedLabel.NO_CONDITION := by
  have hy : passes_yes_gate mc x = false := by
    rw [Bool.eq_false_iff]
    intro hc
    exact ((passes_yes_gate_iff mc x).mp hc).2.2.1 h
  have hn : passes_no_gate mc x = false := by
    rw [Bool.eq_false_iff]
    intro hc
    exact absurd ((passes_no_gate_iff mc x).mp hc).2.2.2 (not_le.mpr h)
  have := final_verdict_of_gates hy hn
  refine ⟨this, ?_, ?_⟩ <;> rw [this] <;> intro hcontra <;> cases hcontra

/-- A concrete low-confidence record that otherwise satisfies every YES-gate
condition. -/
def wrecLow : Extraction :=
  ⟨"https://example.com/doc", none, .JIANXIAWO_MATCH, none, ["恢复生产"], [],
   .YES_CONDITION, 1/2, [⟨"恢复生产公告", "resume production notice", "sec1"⟩], []⟩

/-- Witness for C4 at the default threshold `0.75`. -/
theorem low_confidence_always_ambiguous_witness :
    final_verdict (3/4) wrecLow = AllowedLabel.AMBIGUOUS ∧
    final_verdict (3/4) wrecLow ≠ AllowedLabel.YES_CONDITION ∧
    final_verdict (3/4) wrecLow ≠ AllowedLabel.NO_CONDITION :=
  low_confidence_always_ambiguous (3/4) wrecLow (by norm_num [wrecLow])

/-- C5: the deadline extracted from "Will X happen by 2024-12-31?" is exactly
2024-12-31; "before January 1, 2025" parses to the long month-name date minus
one calendar day, 2024-12-31; and a question matched by none of the three
pattern families yields `none` rather than an error. -/
theorem deadline_parses_by_and_before :
    extract_deadline_from_question "Will X happen by 2024-12-31?" =
      some ⟨2024, 12, 31⟩ ∧
    extract_deadline_from_question "Will X happen before January 1, 2025?" =
      some ⟨2024, 12, 31⟩ ∧
    ∀ q : String,
      searchIso q.data = none →
      searchMonth ['b', 'y'] q.data = none →
      searchMonth ['b', 'e', 'f', 'o', 'r', 'e'] q.data = none →
      extract_deadline_from_question q = none := by
  refine ⟨by decide, by decide, ?_⟩
  intro q h1 h2 h3
  simp [extract_deadline_from_question, h1, h2, h3]

/-- Witness for C5's no-match conjunct on a concrete question. -/
theorem deadline_parses_by_and_before_witness :
    extract_deadline_from_question "Will X resolve?" = none :=
  deadline_parses_by_and_before.2.2 "Will X resolve?" (by decide) (by decide)
    (by decide)

/-! ### Index pairs: the specification side of the pairwise scan -/

/-- Placeholder element for positional (`getD`) indexing into the sorted
ladder; every index used below is in range, so it is never produced. -/
def dfltMD : Market × Date := (⟨none, none⟩, ⟨0, 0, 0⟩)

/-- All index pairs `(i, j)` with `i < j < n`, in the order of the double
loop `for i in range(n): for j in range(i+1, n)`. -/
def idxPairs : ℕ → List (ℕ × ℕ)
  | 0 => []
  | n + 1 =>
    (List.range n).map (fun j => (0, j + 1)) ++
      (idxPairs n).map (fun ij => (ij.1 + 1, ij.2 + 1))

lemma mem_idxPairs {i j : ℕ} : ∀ {n : ℕ}, (i, j) ∈ idxPairs n ↔ i < j ∧ j < n := by
  intro n
  induction n generalizing i j with
  | zero => simp [idxPairs]
  | succ n ih =>
    simp only [idxPairs, List.mem_append, List.mem_map, List.mem_range,
      Prod.mk.injEq, Prod.exists]
    constructor
    · rintro (⟨a, ha, rfl, rfl⟩ | ⟨a, b, hab, rfl, rfl⟩)
      · omega
      · have := ih.mp hab
        omega
    · rintro ⟨hij, hj⟩
      cases i with
      | zero =>
        left
        exact ⟨j - 1, by omega, rfl, by omega⟩
      | succ i' =>
        right
        exact ⟨i', j - 1, ih.mpr (by omega), rfl, by omega⟩

lemma nodup_idxPairs : ∀ n : ℕ, (idxPairs n).Nodup := by
  intro n
  induction n with
  | zero => simp [idxPairs]
  | succ n ih =>
    rw [idxPairs, List.nodup_append]
    refine ⟨?_, ?_, ?_⟩
    · exact (List.nodup_range n).map (fun a b h => by
        simpa using congrArg Prod.snd h)
    · exact ih.map (fun a b h => by
        obtain ⟨h1, h2⟩ := Prod.mk.injEq .. ▸ h
        exact Prod.ext (by omega) (by
          have := congrArg Prod.snd h
          simpa using this))
    · intro p hp hq
      simp only [List.mem_map, List.mem_range] at hp hq
      obtain ⟨a, _, rfl⟩ := hp
      obtain ⟨b, _, hb⟩ := hq
      have := congrArg Prod.fst hb
      simp at this

lemma length_idxPairs : ∀ n : ℕ, (idxPairs n).length * 2 = n * (n - 1) := by
  intro n
  induction n with
  | zero => rfl
  | succ n ih =>
    have hlen : (idxPairs (n + 1)).length = n + (idxPairs n).length := by
      simp [idxPairs]
    rw [hlen, Nat.add_mul, ih]
    cases n with
    | zero => rfl
    | succ m =>
      have : m + 1 + 1 - 1 = m + 1 := rfl
      rw [this, Nat.succ_sub_one]
      ring

lemma map_getD_range {α β : Type} (d : α) (f : α → β) :
    ∀ l : List α, (List.range l.length).map (fun j => f (l.getD j d)) = l.map f := by
  intro l
  induction l with
  | nil => simp
  | cons x xs ih =>
    rw [List.length_cons, List.range_succ_eq_map, List.map_cons, List.map_map]
    simp only [Function.comp_def, List.getD_cons_zero, List.getD_cons_succ]
    rw [ih, List.map_cons]

lemma pairLoop_eq_idx {α : Type} (d : α) :
    ∀ l : List α,
      pairLoop l = (idxPairs l.length).map (fun ij => (l.getD ij.1 d, l.getD ij.2 d)) := by
  intro l
  induction l with
  | nil => simp [pairLoop, idxPairs]
  | cons x xs ih =>
    rw [pairLoop, List.length_cons, idxPairs, List.map_append, List.map_map,
      List.map_map]
    congr 1
    · rw [← map_getD_range d (fun y => (x, y)) xs]
      simp only [Function.comp_def, List.getD_cons_zero, List.getD_cons_succ]

lemma filterMap_ite {α β : Type} (p : α → Prop) [DecidablePred p] (g : α → β) :
    ∀ l : List α,
      (l.filterMap fun a => if p a then some (g a) else none) =
        (l.filter fun a => decide (p a)).map g := by
  intro l
  induction l with
  | nil => rfl
  | cons x xs ih =>
    by_cases h : p x <;> simp [List.filterMap_cons, List.filter_cons, h, ih]

/-- `check_group_monotonicity` restructured as: keep exactly the violating
index pairs of the deadline-sorted sequence, and build one violation from
each. -/
lemma check_group_eq (tol : ℚ) (markets : List Market) :
    check_group_monotonicity tol markets =
      ((idxPairs (sortedLadder markets).length).filter (fun ij =>
          decide (probOf ((sortedLadder markets).getD ij.2 dfltMD).1 + tol <
            probOf ((sortedLadder markets).getD ij.1 dfltMD).1))).map
        (fun ij =>
          LadderViolation.make ((sortedLadder markets).getD ij.1 dfltMD).1
            ((sortedLadder markets).getD ij.2 dfltMD).1
            (probOf ((sortedLadder markets).getD ij.1 dfltMD).1)
            (probOf ((sortedLadder markets).getD ij.2 dfltMD).1)) := by
  unfold check_group_monotonicity
  rw [pairLoop_eq_idx dfltMD, List.filterMap_map]
  have hfun :
      ((fun pr : (Market × Date) × (Market × Date) =>
          if probOf pr.2.1 + tol < probOf pr.1.1 then
            some (LadderViolation.make pr.1.1 pr.2.1 (probOf pr.1.1) (probOf pr.2.1))
          else none) ∘
        (fun ij : ℕ × ℕ =>
          ((sortedLadder markets).getD ij.1 dfltMD,
           (sortedLadder markets).getD ij.2 dfltMD))) =
      fun ij : ℕ × ℕ =>
        if probOf ((sortedLadder markets).getD ij.2 dfltMD).1 + tol <
            probOf ((sortedLadder markets).getD ij.1 dfltMD).1 then
          some (LadderViolation.make ((sortedLadder markets).getD ij.1 dfltMD).1
            ((sortedLadder markets).getD ij.2 dfltMD).1
            (probOf ((sortedLadder markets).getD ij.1 dfltMD).1)
            (probOf ((sortedLadder markets).getD ij.2 dfltMD).1))
        else none := rfl
  rw [hfun]
  exact filterMap_ite
    (fun ij : ℕ × ℕ =>
      probOf ((sortedLadder markets).getD ij.2 dfltMD).1 + tol <
        probOf ((sortedLadder markets).getD ij.1 dfltMD).1)
    (fun ij : ℕ × ℕ =>
      LadderViolation.make ((sortedLadder markets).getD ij.1 dfltMD).1
        ((sortedLadder markets).getD ij.2 dfltMD).1
        (probOf ((sortedLadder markets).getD ij.1 dfltMD).1)
        (probOf ((sortedLadder markets).getD ij.2 dfltMD).1))
    (idxPairs (sortedLadder markets).length)

lemma dateLe_total (a b : Date) : dateLe a b = true ∨ dateLe b a = true := by
  unfold dateLe
  simp only [decide_eq_true_eq]
  omega

lemma dateLe_trans {a b c : Date} (h1 : dateLe a b = true)
    (h2 : dateLe b c = true) : dateLe a c = true := by
  unfold dateLe at h1 h2 ⊢
  simp only [decide_eq_true_eq] at h1 h2 ⊢
  omega

instance : IsTotal (Market × Date) deadlineRel :=
  ⟨fun a b => dateLe_total a.2 b.2⟩

instance : IsTrans (Market × Date) deadlineRel :=
  ⟨fun _ _ _ h1 h2 => dateLe_trans h1 h2⟩

lemma sortedLadder_pairwise (markets : List Market) :
    (sortedLadder markets).Pairwise deadlineRel :=
  List.sorted_insertionSort deadlineRel (marketsWithDeadlines markets)

/-- Every element of the sorted ladder is a market of the group paired with
the deadline parsed from its own question. -/
lemma mem_sortedLadder_deadline {markets : List Market} {pr : Market × Date}
    (h : pr ∈ sortedLadder markets) :
    extract_deadline_from_question (pr.1.question.getD "") = some pr.2 := by
  unfold sortedLadder at h
  rw [List.mem_insertionSort] at h
  unfold marketsWithDeadlines at h
  rw [List.mem_filterMap] at h
  obtain ⟨m, _, hmap⟩ := h
  obtain ⟨d, hd, heq⟩ := Option.map_eq_some'.mp hmap
  rw [← heq]
  exact hd

/-- C2: on the deadline-sorted sequence of a group, the monotonicity check
emits exactly one violation per index pair `(i, j)`, `i < j` — `idxPairs`
enumerates each of the `n·(n−1)/2` pairs exactly once, adjacent or not —
whose earlier-minus-later probability difference exceeds the tolerance, and
none otherwise; every emitted violation carries
`violation_size = earlier_prob − later_prob`; and the sequence the pairs
range over is sorted ascending by parsed deadline. -/
theorem pairwise_monotonicity_exact (tol : ℚ) (markets : List Market) :
    (check_group_monotonicity tol markets =
      ((idxPairs (sortedLadder markets).length).filter (fun ij =>
          decide (probOf ((sortedLadder markets).getD ij.2 dfltMD).1 + tol <
            probOf ((sortedLadder markets).getD ij.1 dfltMD).1))).map
        (fun ij =>
          LadderViolation.make ((sortedLadder markets).getD ij.1 dfltMD).1
            ((sortedLadder markets).getD ij.2 dfltMD).1
            (probOf ((sortedLadder markets).getD ij.1 dfltMD).1)
            (probOf ((sortedLadder markets).getD ij.2 dfltMD).1))) ∧
    (∀ i j : ℕ, (i, j) ∈ idxPairs (sortedLadder markets).length ↔
        i < j ∧ j < (sortedLadder markets).length) ∧
    (idxPairs (sortedLadder markets).length).Nodup ∧
    (idxPairs (sortedLadder markets).length).length * 2 =
      (sortedLadder markets).length * ((sortedLadder markets).length - 1) ∧
    (sortedLadder markets).Pairwise deadlineRel ∧
    (∀ v ∈ check_group_monotonicity tol markets,
      v.violation_size = v.earlier_prob - v.later_prob) := by
  refine ⟨check_group_eq tol markets, fun i j => mem_idxPairs,
    nodup_idxPairs _, length_idxPairs _, sortedLadder_pairwise markets, ?_⟩
  intro v hv
  rw [check_group_eq] at hv
  simp only [List.mem_map] at hv
  obtain ⟨ij, _, rfl⟩ := hv
  rfl

/-- A market with an early deadline and probability 0.80. -/
def wm1 : Market := ⟨some "Will X happen by 2024-06-30?", some (4/5)⟩

/-- A market with a later deadline and probability 0.70. -/
def wm2 : Market := ⟨some "Will X happen by 2024-12-31?", some (7/10)⟩

/-- Witness for C2: on the two-market group the emitted violation carries
`violation_size = earlier_prob − later_prob`. -/
theorem pairwise_monotonicity_exact_witness :
    (LadderViolation.make wm1 wm2 (4/5) (7/10)).violation_size =
      (LadderViolation.make wm1 wm2 (4/5) (7/10)).earlier_prob -
        (LadderViolation.make wm1 wm2 (4/5) (7/10)).later_prob :=
  (pairwise_monotonicity_exact (1/20) [wm1, wm2]).2.2.2.2.2
    (LadderViolation.make wm1 wm2 (4/5) (7/10))
    (of_decide_eq_true (by with_unfolding_all rfl))

/-- C9: a market dict with no `'probability'` key is treated as probability
0, so an earlier-deadline market whose probability exceeds the tolerance,
paired with a later-deadline market missing its probability, always yields a
violation with later probability 0 and violation size equal to the earlier
probability. -/
theorem missing_probability_defaults_to_zero (tol : ℚ) (markets : List Market)
    (i j : ℕ) (p : ℚ) (hij : i < j) (hj : j < (sortedLadder markets).length)
    (hpi : ((sortedLadder markets).getD i dfltMD).1.probability = some p)
    (hpj : ((sortedLadder markets).getD j dfltMD).1.probability = none)
    (hp : tol < p) :
    LadderViolation.make ((sortedLadder markets).getD i dfltMD).1
        ((sortedLadder markets).getD j dfltMD).1 p 0
      ∈ check_group_monotonicity tol markets ∧
    (LadderViolation.make ((sortedLadder markets).getD i dfltMD).1
        ((sortedLadder markets).getD j dfltMD).1 p 0).later_prob = 0 ∧
    (LadderViolation.make ((sortedLadder markets).getD i dfltMD).1
        ((sortedLadder markets).getD j dfltMD).1 p 0).violation_size = p := by
  have hpo_i : probOf ((sortedLadder markets).getD i dfltMD).1 = p := by
    unfold probOf
    rw [hpi]
    rfl
  have hpo_j : probOf ((sortedLadder markets).getD j dfltMD).1 = 0 := by
    unfold probOf
    rw [hpj]
    rfl
  refine ⟨?_, rfl, by simp [LadderViolation.make]⟩
  rw [check_group_eq]
  refine List.mem_map.mpr ⟨(i, j), List.mem_filter.mpr ⟨mem_idxPairs.mpr ⟨hij, hj⟩, ?_⟩, ?_⟩
  · show decide (probOf ((sortedLadder markets).getD j dfltMD).1 + tol <
        probOf ((sortedLadder markets).getD i dfltMD).1) = true
    rw [hpo_i, hpo_j, zero_add]
    exact decide_eq_true hp
  · show LadderViolation.make ((sortedLadder markets).getD i dfltMD).1
        ((sortedLadder markets).getD j dfltMD).1
        (probOf ((sortedLadder markets).getD i dfltMD).1)
        (probOf ((sortedLadder markets).getD j dfltMD).1) =
      LadderViolation.make ((sortedLadder markets).getD i dfltMD).1
        ((sortedLadder markets).getD j dfltMD).1 p 0
    rw [hpo_i, hpo_j]

/-- The later-deadline market of the C9 witness, with no probability entry. -/
def wm3n : Market := ⟨some "Will X happen by 2024-12-31?", none⟩

/-- Witness for C9 on a concrete two-market group. -/
theorem missing_probability_defaults_to_zero_witness :
    LadderViolation.make wm1 wm3n (4/5) 0
      ∈ check_group_monotonicity (1/20) [wm1, wm3n] ∧
    (LadderViolation.make wm1 wm3n (4/5) 0).later_prob = 0 ∧
    (LadderViolation.make wm1 wm3n (4/5) 0).violation_size = 4/5 :=
  missing_probability_defaults_to_zero (1/20) [wm1, wm3n] 0 1 (4/5)
    (by decide) (of_decide_eq_true (by with_unfolding_all rfl))
    (of_decide_eq_true (by with_unfolding_all rfl))
    (of_decide_eq_true (by with_unfolding_all rfl)) (by norm_num)

/-- C10: no violation produced by the full check involves a market whose
question has no parseable deadline (dateless markets are dropped before
pairing), while the two-member threshold that retains a group counts all its
markets, dateless ones included. -/
theorem violations_only_involve_dated_markets (tol : ℚ) (markets : List Market) :
    (∀ v ∈ check_all_violations tol markets,
      (extract_deadline_from_question (v.earlier_market.question.getD "")).isSome ∧
      (extract_deadline_from_question (v.later_market.question.getD "")).isSome) ∧
    (∀ g ∈ group_markets_by_base_question markets, 2 ≤ g.2.length) := by
  constructor
  · intro v hv
    unfold check_all_violations at hv
    rw [List.mem_flatMap] at hv
    obtain ⟨g, _, hvg⟩ := hv
    rw [check_group_eq] at hvg
    simp only [List.mem_map, List.mem_filter] at hvg
    obtain ⟨ij, ⟨hmem, _⟩, rfl⟩ := hvg
    obtain ⟨hij, hj⟩ := mem_idxPairs.mp hmem
    have hi : ij.1 < (sortedLadder g.2).length := lt_trans hij hj
    have hmi : (sortedLadder g.2).getD ij.1 dfltMD ∈ sortedLadder g.2 := by
      rw [List.getD_eq_getElem _ _ hi]
      exact List.getElem_mem hi
    have hmj : (sortedLadder g.2).getD ij.2 dfltMD ∈ sortedLadder g.2 := by
      rw [List.getD_eq_getElem _ _ hj]
      exact List.getElem_mem hj
    simp only [LadderViolation.make]
    constructor
    · rw [mem_sortedLadder_deadline hmi]
      rfl
    · rw [mem_sortedLadder_deadline hmj]
      rfl
  · intro g hg
    unfold group_markets_by_base_question at hg
    rw [List.mem_filter] at hg
    have := of_decide_eq_true hg.2
    omega

/-- A market in the same ladder group with no parseable deadline. -/
def wm4 : Market := ⟨some "Will X happen by unknown date?", some (1/2)⟩

/-- Witness for C10: a three-market group (one market dateless) yields a
violation between the two dated markets. -/
theorem violations_only_involve_dated_markets_witness :
    (extract_deadline_from_question
      ((LadderViolation.make wm1 wm2 (4/5) (7/10)).earlier_market.question.getD "")).isSome ∧
    (extract_deadline_from_question
      ((LadderViolation.make wm1 wm2 (4/5) (7/10)).later_market.question.getD "")).isSome :=
  (violations_only_involve_dated_markets (1/20) [wm1, wm2, wm4]).1
    (LadderViolation.make wm1 wm2 (4/5) (7/10))
    (of_decide_eq_true (by with_unfolding_all rfl))

/-! ### Specification-side characterizations of the prefilter

The following `Prop`-valued definitions follow the wording of the
specification (§4.1 and §6), to be compared with the code's
`passes_boolean_filter`. -/

/-- Spec wording, entity half: some entity alias (company or canonical-mine)
or geo alias from the phrasebook occurs case-insensitively in the text. -/
def specEntityHalf (text : String) (pb : Phrasebook) : Prop :=
  ∃ cat ∈ ["company_aliases", "mine_aliases", "geo_aliases"],
    ∃ ts, lookupPB pb cat = some ts ∧ ∃ a ∈ ts, substrLower a text = true

/-- Spec wording, action half **as claimed**: some term from an affirmative
license-verb set, a negative license-verb set *in either language*, or the
traditional-script-variant set occurs case-insensitively in the text. -/
def specActionHalfClaimed (text : String) (pb : Phrasebook) : Prop :=
  ∃ cat ∈ ["yes_zh", "yes_en", "no_zh", "no_en", "traditional_zh"],
    ∃ ts, lookupPB pb cat = some ts ∧ ∃ a ∈ ts, substrLower a text = true

/-- Action half as the code implements it: the `no_en` category is never
consulted. -/
def specActionHalfCode (text : String) (pb : Phrasebook) : Prop :=
  ∃ cat ∈ ["yes_zh", "yes_en", "no_zh", "traditional_zh"],
    ∃ ts, lookupPB pb cat = some ts ∧ ∃ a ∈ ts, substrLower a text = true

lemma categoryHits_iff {text : String} {pb : Phrasebook} {cat : String} :
    categoryHits text pb cat = true ↔
      ∃ ts, lookupPB pb cat = some ts ∧ ∃ a ∈ ts, substrLower a text = true := by
  unfold categoryHits
  cases h : lookupPB pb cat <;> simp [h, List.any_eq_true]

/-- Counterexample phrasebook for C6: the only action term lives in the
English negative-verb category. -/
def pbC6 : Phrasebook := [("company_aliases", ["BYD"]), ("no_en", ["suspend"])]

/-- C6 counterexample: a text matching an entity alias and an English
negative verb satisfies both halves of the claimed filter, yet
`passes_boolean_filter` rejects it (the code never consults `no_en`). -/
theorem boolean_filter_c6_counterexample :
    specEntityHalf "BYD suspend announcement" pbC6 ∧
    specActionHalfClaimed "BYD suspend announcement" pbC6 ∧
    passes_boolean_filter "BYD suspend announcement" pbC6 = false := by
  refine ⟨⟨"company_aliases", by decide, ["BYD"], by decide, "BYD", by decide, by decide⟩,
    ⟨"no_en", by decide, ["suspend"], by decide, "suspend", by decide, by decide⟩,
    by decide⟩

/-- C6 (amended): the boolean prefilter passes a text iff some entity
(company/mine/geo) alias occurs case-insensitively in it and some term from
the affirmative verb sets (either language), the *Chinese* negative verb set
or the traditional-script set occurs case-insensitively in it; absent or
empty categories contribute nothing, and the English negative set is never
consulted. -/
theorem boolean_filter_iff_spec (text : String) (pb : Phrasebook) :
    passes_boolean_filter text pb = true ↔
      specEntityHalf text pb ∧ specActionHalfCode text pb := by
  unfold passes_boolean_filter entity_match action_match specEntityHalf
    specActionHalfCode
  simp only [Bool.and_eq_true, List.any_eq_true, categoryHits_iff]

/-! ### C8: relevance check -/

/-- Counterexample phrasebook for C8: a single mine alias that is also a
fuzzy Jianxiawo Latin variant, and no action categories at all. -/
def pbC8 : Phrasebook := [("mine_aliases", ["jianxiawo"])]

/-- C8 counterexample: a title containing only an entity alias and no action
term still *passes* `enhanced_relevance_check`, through the fuzzy Jianxiawo
fallback. -/
theorem relevance_check_c8_counterexample :
    entity_match "Jianxiawo mine" pbC8 = true ∧
    action_match "Jianxiawo mine" pbC8 = false ∧
    enhanced_relevance_check ⟨some "Jianxiawo mine"⟩ pbC8 = true := by
  refine ⟨by decide, by decide, by decide⟩

/-- C8 (amended): a title containing an entity alias and an affirmative verb
from the phrasebook passes the relevance prefilter; a title containing no
action term fails it **provided** it also misses the fuzzy Jianxiawo variant
fallback. -/
theorem relevance_check_entity_and_verb (pb : Phrasebook) (item : Item) :
    (specEntityHalf (item.title.getD "") pb ∧
     (∃ cat ∈ ["yes_zh", "yes_en"],
        ∃ ts, lookupPB pb cat = some ts ∧
          ∃ v ∈ ts, substrLower v (item.title.getD "") = true) →
      enhanced_relevance_check item pb = true) ∧
    (action_match (item.title.getD "") pb = false →
      fuzzy_mine_match (item.title.getD "") = false →
      enhanced_relevance_check item pb = false) := by
  constructor
  · rintro ⟨hent, cat, hcat, ts, hts, v, hv, hsub⟩
    have he : entity_match (item.title.getD "") pb = true := by
      unfold entity_match
      rw [List.any_eq_true]
      obtain ⟨c', hc', ts', hts', a, ha, hsa⟩ := hent
      exact ⟨c', hc', categoryHits_iff.mpr ⟨ts', hts', a, ha, hsa⟩⟩
    have ha : action_match (item.title.getD "") pb = true := by
      unfold action_match
      rw [List.any_eq_true]
      refine ⟨cat, ?_, categoryHits_iff.mpr ⟨ts, hts, v, hv, hsub⟩⟩
      simp only [List.mem_cons, List.mem_singleton] at hcat ⊢
      tauto
    simp [enhanced_relevance_check, passes_boolean_filter, he, ha]
  · intro h1 h2
    simp [enhanced_relevance_check, passes_boolean_filter, h1, h2]

/-- Phrasebook for the C8 witness. -/
def pbW : Phrasebook := [("company_aliases", ["ganfeng"]), ("yes_en", ["license renewal"])]

/-- Witness for C8 (amended): both directions at concrete inputs. -/
theorem relevance_check_entity_and_verb_witness :
    enhanced_relevance_check ⟨some "Ganfeng obtains License Renewal"⟩ pbW = true ∧
    enhanced_relevance_check ⟨some "Ganfeng quarterly report"⟩ pbW = false :=
  ⟨(relevance_check_entity_and_verb pbW ⟨some "Ganfeng obtains License Renewal"⟩).1
      ⟨⟨"company_aliases", by decide, ["ganfeng"], by decide, "ganfeng", by decide, by decide⟩,
       ⟨"yes_en", by decide, ["license renewal"], by decide, "license renewal", by decide, by decide⟩⟩,
   (relevance_check_entity_and_verb pbW ⟨some "Ganfeng quarterly report"⟩).2
      (by decide) (by decide)⟩

/-! ### C7: model validation -/

lemma mkEvidence_eq_none {e : Option String × Option String × Option String}
    (h : e.1 = none ∨ e.2.1 = none ∨ e.2.2 = none) :
    mkEvidence e.1 e.2.1 e.2.2 = none := by
  obtain ⟨q, t, w⟩ := e
  dsimp at h ⊢
  cases q <;> cases t <;> cases w <;> simp_all [mkEvidence]

lemma validateEvidence_none_of_mem
    {ev : List (Option String × Option String × Option String)}
    {e : Option String × Option String × Option String} (he : e ∈ ev)
    (h : mkEvidence e.1 e.2.1 e.2.2 = none) : validateEvidence ev = none := by
  induction ev with
  | nil => cases he
  | cons x xs ih =>
    rcases List.mem_cons.mp he with rfl | hmem
    · simp [validateEvidence, h]
    · cases hx : mkEvidence x.1 x.2.1 x.2.2 <;>
        simp [validateEvidence, hx, ih hmem]

lemma validateEvidence_isSome
    {ev : List (Option String × Option String × Option String)}
    (h : ∀ e ∈ ev, e.1.isSome ∧ e.2.1.isSome ∧ e.2.2.isSome) :
    (validateEvidence ev).isSome = true := by
  induction ev with
  | nil => rfl
  | cons x xs ih =>
    obtain ⟨h1, h2, h3⟩ := h x (List.mem_cons_self x xs)
    obtain ⟨q, hq⟩ := Option.isSome_iff_exists.mp h1
    obtain ⟨t, ht⟩ := Option.isSome_iff_exists.mp h2
    obtain ⟨w, hw⟩ := Option.isSome_iff_exists.mp h3
    obtain ⟨vs, hvs⟩ := Option.isSome_iff_exists.mp
      (ih fun e he => h e (List.mem_cons_of_mem x he))
    simp [validateEvidence, hq, ht, hw, hvs, mkEvidence]

/-- C7 counterexample: an `Extraction` whose evidence entry has an *empty*
source-language quote is accepted by the pydantic model (no `ValidationError`
is raised); pydantic only enforces presence, not non-emptiness. -/
theorem empty_evidence_quote_accepted :
    mkExtraction (some "https://example.com/doc") none (some "JIANXIAWO_MATCH")
        none [] [] (some "YES_CONDITION") (some 1)
        [(some "", some "translation", some "locator")] [] =
      some ⟨"https://example.com/doc", none, .JIANXIAWO_MATCH, none, [], [],
            .YES_CONDITION, 1, [⟨"", "translation", "locator"⟩], []⟩ := by
  with_unfolding_all rfl

/-- C7 (amended): an `Extraction` whose evidence list contains an entry with
a *missing* quote, translation or locator is rejected with a validation
error, while a record with confidence in `[0, 1]`, recognized enum labels and
fully-populated evidence entries is accepted (empty strings included). -/
theorem extraction_validation_behaviour :
    (∀ du dt mm au kz ke pl c
       (ev : List (Option String × Option String × Option String)) hz
       (e : Option String × Option String × Option String), e ∈ ev →
       (e.1 = none ∨ e.2.1 = none ∨ e.2.2 = none) →
       mkExtraction du dt mm au kz ke pl c ev hz = none) ∧
    (∀ (du : String) dt (mmRaw : String) au kz ke (plRaw : String) (c : ℚ)
       (ev : List (Option String × Option String × Option String)) hz,
       (parseMineMatch mmRaw).isSome = true → (parseLabel plRaw).isSome = true →
       0 ≤ c → c ≤ 1 →
       (∀ e ∈ ev, e.1.isSome ∧ e.2.1.isSome ∧ e.2.2.isSome) →
       (mkExtraction (some du) dt (some mmRaw) au kz ke (some plRaw) (some c)
         ev hz).isSome = true) := by
  constructor
  · intro du dt mm au kz ke pl c ev hz e he hf
    have hv : validateEvidence ev = none :=
      validateEvidence_none_of_mem he (mkEvidence_eq_none hf)
    unfold mkExtraction
    cases du <;> cases mm.bind parseMineMatch <;> cases pl.bind parseLabel <;>
      cases c <;> try rfl
    simp [hv]
  · intro du dt mmRaw au kz ke plRaw c ev hz h1 h2 h3 h4 h5
    obtain ⟨mmv, hmm⟩ := Option.isSome_iff_exists.mp h1
    obtain ⟨plv, hpl⟩ := Option.isSome_iff_exists.mp h2
    obtain ⟨evs, hevs⟩ := Option.isSome_iff_exists.mp (validateEvidence_isSome h5)
    unfold mkExtraction
    simp [hmm, hpl, hevs, h3, h4]

/-- Witness for C7 (amended): a missing translation field is rejected and a
fully-populated record is accepted. -/
theorem extraction_validation_behaviour_witness :
    mkExtraction (some "https://example.com/doc") none (some "JIANXIAWO_MATCH")
        none [] [] (some "YES_CONDITION") (some 1)
        [(some "q", none, some "locator")] [] = none ∧
    (mkExtraction (some "https://example.com/doc") none (some "JIANXIAWO_MATCH")
        none [] [] (some "YES_CONDITION") (some 1)
        [(some "q", some "t", some "w")] []).isSome = true :=
  ⟨extraction_validation_behaviour.1 (some "https://example.com/doc") none
      (some "JIANXIAWO_MATCH") none [] [] (some "YES_CONDITION") (some 1)
      [(some "q", none, some "locator")] [] (some "q", none, some "locator")
      (by decide) (Or.inr (Or.inl rfl)),
   extraction_validation_behaviour.2 "https://example.com/doc" none
      "JIANXIAWO_MATCH" none [] [] "YES_CONDITION" 1
      [(some "q", some "t", some "w")] [] (by decide) (by decide)
      (by norm_num) (by norm_num) (by decide)⟩

end Oreacle
